import Mathlib

/-!
Verification development for the agentty session-orchestration core.

The Rust sources are embedded shallowly: pure control flow is translated
into executable Lean functions; stateful code (session output buffers,
status cells, commit counters) is passed explicitly as state values;
interactions with the outside world (child processes, git commands, the
database) are abstracted into oracles that record the observable trace.
-/

namespace Agentty

/-- Session lifecycle status, from `crate::model::Status`
(`domain/session.rs`).  The variants are listed in the spec §3/§4.4. -/
inductive Status
  | new
  | inProgress
  | review
  | merging
  | creatingPullRequest
  | pullRequest
  | done
  | canceled
deriving DecidableEq, Repr

/-- Modelled from the spec: `Status::can_transition_to` (the body lives in
the `domain/session.rs` module, which is absent from the sources; only its
callers are present).  The edges follow the §4.4 state graph:
`New → InProgress`, `InProgress → Review`, `InProgress → Canceled`,
`Review → InProgress`, `Review → Merging`, `Merging → Done`,
`Review → CreatingPullRequest`, `CreatingPullRequest → PullRequest`,
`PullRequest → Done`, plus the `ClearHistory` edge from any state to
`New`. -/
def Status.can_transition_to : Status → Status → Bool
  | .new, .inProgress => true
  | .inProgress, .review => true
  | .inProgress, .canceled => true
  | .review, .inProgress => true
  | .review, .merging => true
  | .merging, .done => true
  | .review, .creatingPullRequest => true
  | .creatingPullRequest, .pullRequest => true
  | .pullRequest, .done => true
  | _, .new => true
  | _, _ => false

/-- Agent backend kinds, from `crate::agent::AgentKind`. -/
inductive AgentKind
  | claude
  | gemini
  | codex
deriving DecidableEq, Repr

/-- Agent model identifier (the concrete enum is irrelevant here). -/
abbrev AgentModel := String

/-- Permission modes, from `crate::model::PermissionMode`. -/
inductive PermissionMode
  | plan
  | autoEdit
  | autonomous
deriving DecidableEq, Repr

/-- Internal app events, from `AppEvent` in `app/mod.rs`. -/
inductive AppEvent
  | gitStatusUpdated (status : Option (Nat × Nat))
  | sessionHistoryCleared (session_id : String)
  | sessionAgentModelUpdated (session_agent : AgentKind) (session_id : String)
      (session_model : AgentModel)
  | sessionPermissionModeUpdated (permission_mode : PermissionMode)
      (session_id : String)
  | prCreationCleared (session_id : String)
  | prPollingStopped (session_id : String)
  | refreshSessions
  | sessionUpdated (session_id : String)
deriving DecidableEq, Repr

/-- From `TaskService::status_requires_full_refresh` in `app/task.rs`:
statuses whose change triggers a full session-list reload. -/
def status_requires_full_refresh (status : Status) : Bool :=
  match status with
  | .inProgress | .review | .merging | .creatingPullRequest
  | .pullRequest | .done | .canceled => true
  | .new => false

/-- The status both in the in-memory session handle (mutex-guarded cell)
and in the database row for the same session. -/
structure StatusCell where
  mem : Status
  db : Status
deriving DecidableEq, Repr

/-- From `TaskService::update_status` in `app/task.rs`: applies a status
transition to the in-memory cell and the database only when
`can_transition_to` accepts the edge; emits `SessionUpdated` (plus
`RefreshSessions` when the target status requires a full reload) and
returns whether the update happened. -/
def update_status (cell : StatusCell) (id : String) (next : Status) :
    Bool × StatusCell × List AppEvent :=
  if cell.mem.can_transition_to next then
    (true, ⟨next, next⟩,
      AppEvent.sessionUpdated id ::
        (if status_requires_full_refresh next then [AppEvent.refreshSessions] else []))
  else
    (false, cell, [])

/-- C3: a status transition is applied in memory and persisted only when it
is an edge of the state graph; a non-edge leaves both the in-memory status
and the stored status unchanged, emits nothing, and reports that no update
happened. -/
theorem update_status_edge_guard (cell : StatusCell) (id : String) (next : Status) :
    ((update_status cell id next).1 = cell.mem.can_transition_to next) ∧
    (cell.mem.can_transition_to next = false →
      update_status cell id next = (false, cell, [])) ∧
    (cell.mem.can_transition_to next = true →
      (update_status cell id next).2.1 = ⟨next, next⟩) := by
  unfold update_status
  rcases h : cell.mem.can_transition_to next <;> simp [h]

/-- Witness for `update_status_edge_guard`: `Done → InProgress` is not an
edge, so the attempted transition is a no-op. -/
theorem update_status_edge_guard_witness :
    update_status ⟨Status.done, Status.done⟩ "s" Status.inProgress =
      (false, ⟨Status.done, Status.done⟩, []) :=
  (update_status_edge_guard ⟨Status.done, Status.done⟩ "s" Status.inProgress).2.1
    (by decide)

/-! ## Turn execution (`TaskService::run_session_task`) and the
auto-commit pipeline (`app/task.rs`) -/

/-- Boolean infix test on character lists, used to embed Rust's
`str::contains(substring)`. -/
def charsContainSeq (needle : List Char) : List Char → Bool
  | [] => needle.isEmpty
  | c :: rest => needle.isPrefixOf (c :: rest) || charsContainSeq needle rest

/-- Rust `str::contains(pat)` for a string pattern: substring test. -/
def strContainsSub (hay needle : String) : Bool :=
  charsContainSeq needle.data hay.data

/-- Rust `str::lines`: split on `\n`, dropping one trailing empty piece and
any trailing `\r` on each line. -/
def rustLines (s : String) : List String :=
  let parts := s.splitOn "\n"
  let parts := if parts.getLast? = some "" then parts.dropLast else parts
  parts.map (fun line => if line.endsWith "\r" then line.dropRight 1 else line)

/-- Rust `str::trim`: strips whitespace from both ends (computable
character-list implementation). -/
def rustTrim (s : String) : String :=
  ⟨((s.data.dropWhile Char.isWhitespace).reverse.dropWhile Char.isWhitespace).reverse⟩

/-- Constant `AUTO_COMMIT_ASSIST_MAX_ATTEMPTS` in `app/task.rs`. -/
def AUTO_COMMIT_ASSIST_MAX_ATTEMPTS : Nat := 3

/-- From `TaskService::format_commit_error_for_display`: each error line
prefixed with `- `, joined by newlines. -/
def format_commit_error_for_display (commit_error : String) : String :=
  String.intercalate "\n" ((rustLines commit_error).map (fun line => "- " ++ line))

/-- The header appended before assist attempt `k`
(`TaskService::append_commit_assist_header`). -/
def commit_assist_header (assist_attempt : Nat) (commit_error : String) : String :=
  "\n[Commit Assist] Attempt " ++ toString assist_attempt ++ "/" ++
    toString AUTO_COMMIT_ASSIST_MAX_ATTEMPTS ++
    ". Resolving auto-commit failure:\n" ++
    format_commit_error_for_display commit_error ++ "\n"

/-- The `[Commit]` line appended on auto-commit success
(`TaskService::handle_auto_commit`). -/
def commit_success_line (hash : String) : String :=
  "\n[Commit] committed with hash `" ++ hash ++ "`\n"

/-- The `[Commit Error]` line appended when the pipeline gives up
(`TaskService::handle_auto_commit`). -/
def commit_error_line (err : String) : String :=
  "\n[Commit Error] " ++ err ++ "\n"

/-- Outcome of one assist agent run, abstracting the child process spawned
by `TaskService::run_agent_assist_task`:
either the process ran to completion and its parsed response content is
`content`, it was interrupted by a signal, or spawning failed. -/
inductive AssistRun
  | completed (content : String)
  | interrupted
  | spawnFailed (err : String)
deriving DecidableEq, Repr

/-- From `TaskService::run_agent_assist_task`: runs one assist agent
command; returns the list of output chunks it appends and its result. -/
def run_agent_assist_task (run : AssistRun) : List String × Except String Unit :=
  match run with
  | .spawnFailed e =>
      let msg := "Failed to spawn process: " ++ e ++ "\n"
      ([msg], .error (rustTrim msg))
  | .interrupted =>
      (["\n[Stopped] Agent assistance interrupted.\n"],
        .error "Agent assistance interrupted")
  | .completed content =>
      ([content], .ok ())

/-- From `TaskService::run_commit_assist_for_error`: wraps the assist run,
prefixing its error with `Commit assistance failed: `. -/
def run_commit_assist_for_error (run : AssistRun) : List String × Except String Unit :=
  let (msgs, res) := run_agent_assist_task run
  (msgs,
    match res with
    | .ok () => .ok ()
    | .error e => .error ("Commit assistance failed: " ++ e))

/-- Cumulative token usage, from `SessionStats`. -/
structure SessionStats where
  input_tokens : Nat
  output_tokens : Nat
deriving DecidableEq, Repr

/-- Result of `parse_response(stdout, stderr, mode)`. -/
structure ParsedResponse where
  content : String
  stats : SessionStats
deriving DecidableEq, Repr

/-- Abstraction of the main agent child process of one turn: spawning
failed, or the process exited (`killedBySignal` is true when the exit
status carries a signal) with the captured stdout/stderr text. -/
inductive SpawnOutcome
  | failed (err : String)
  | exited (killedBySignal : Bool) (stdout stderr : String)
deriving DecidableEq, Repr

/-- Oracles for one turn: the spawned agent process, the backend's
`parse_response` on the captured stdout/stderr, the result of the `k`-th
`SessionManager::commit_changes` call, and the `k`-th assist agent run. -/
structure TurnCtx where
  /-- Result of the `k`-th `commit_changes` call of this turn (1-based):
  `ok hash` on success, `error e` on failure; a failure whose text contains
  `Nothing to commit` is the benign no-change case. -/
  attempts : Nat → Except String String
  /-- Outcome of the `k`-th assist agent run of this turn (1-based). -/
  assists : Nat → AssistRun
  /-- The main child process of this turn. -/
  spawn : SpawnOutcome
  /-- The backend's `parse_response` applied to captured stdout/stderr. -/
  parse : String → String → ParsedResponse

/-- Modelled from the spec: `SessionManager::commit_changes` (its body is
absent from the sources; `app/task.rs` only calls it).  Per §4.1/§4.5 it
commits the worktree and on success increments `commit_count` and returns
the commit hash; `Nothing to commit` is reported as an error string. -/
def commit_changes (attempt : Except String String) (commit_count : Int) :
    Except String String × Int :=
  match attempt with
  | .ok hash => (.ok hash, commit_count + 1)
  | .error e => (.error e, commit_count)

/-- One iteration trace of the assist loop in
`TaskService::commit_changes_with_assist`: the `for assist_attempt in
1..=MAX+1` loop, unrolled with explicit fuel.  Returns the output chunks
appended, the loop result (`ok (some hash)` committed, `ok none` nothing
to commit, `error e` gave up or assist failed) and the commit count. -/
def commit_assist_loop (ctx : TurnCtx) (commit_count : Int) :
    Nat → Nat → List String × Except String (Option String) × Int
  | _, 0 => ([], .error "Failed to auto-commit after assistance attempts", commit_count)
  | assist_attempt, fuel + 1 =>
    match commit_changes (ctx.attempts assist_attempt) commit_count with
    | (.ok hash, count') => ([], .ok (some hash), count')
    | (.error commit_error, count') =>
      if strContainsSub commit_error "Nothing to commit" then
        ([], .ok none, count')
      else if AUTO_COMMIT_ASSIST_MAX_ATTEMPTS < assist_attempt then
        ([], .error commit_error, count')
      else
        let header := commit_assist_header assist_attempt commit_error
        let (assist_msgs, assist_res) := run_commit_assist_for_error (ctx.assists assist_attempt)
        match assist_res with
        | .error assist_err => (header :: assist_msgs, .error assist_err, count')
        | .ok () =>
          let (rest_msgs, res, count'') := commit_assist_loop ctx count' (assist_attempt + 1) fuel
          (header :: assist_msgs ++ rest_msgs, res, count'')

/-- From `TaskService::commit_changes_with_assist`: repeatedly tries
`commit_changes`, interleaving up to `AUTO_COMMIT_ASSIST_MAX_ATTEMPTS`
assist agent turns between failures. -/
def commit_changes_with_assist (ctx : TurnCtx) (commit_count : Int) :
    List String × Except String (Option String) × Int :=
  commit_assist_loop ctx commit_count 1 (AUTO_COMMIT_ASSIST_MAX_ATTEMPTS + 1)

/-- From `TaskService::handle_auto_commit`: wraps the assist loop, then
appends exactly one `[Commit]` line on success, nothing for the
nothing-to-commit case, and one `[Commit Error]` line on failure.
Returns all output chunks appended during the pipeline plus the new
commit count. -/
def handle_auto_commit (ctx : TurnCtx) (commit_count : Int) : List String × Int :=
  match commit_changes_with_assist ctx commit_count with
  | (msgs, .ok (some hash), count') => (msgs ++ [commit_success_line hash], count')
  | (msgs, .ok none, count') => (msgs, count')
  | (msgs, .error e, count') => (msgs ++ [commit_error_line e], count')

/-- Observable per-session state touched by one worker turn: the sequence
of chunks appended to the session output (each chunk goes both to the
in-memory buffer and, via `append_session_output`, to storage), the status
cell, the commit count and the cumulative token stats. -/
structure SessionSt where
  output : List String
  cell : StatusCell
  commit_count : Int
  stats : SessionStats
deriving Repr

/-- From `TaskService::append_session_output`: appends one chunk to the
in-memory buffer and the database row. -/
def append_session_output (st : SessionSt) (message : String) : SessionSt :=
  { st with output := st.output ++ [message] }

/-- From `TaskService::run_session_task` in `app/task.rs`: executes one
agent command.  On spawn failure it appends `Failed to spawn process:
<err>` and bails with that error.  If the child was killed by a signal it
appends the `[Stopped]` line.  Otherwise it appends the parsed response
content, accumulates stats, and runs the auto-commit pipeline.  In every
case it finally attempts a status transition to `Review`. -/
def run_session_task (ctx : TurnCtx) (st : SessionSt) (id : String) :
    SessionSt × Except String Unit :=
  let (st1, spawn_error) :=
    match ctx.spawn with
    | .failed e =>
        let message := "Failed to spawn process: " ++ e ++ "\n"
        (append_session_output st message, some (rustTrim message))
    | .exited killedBySignal stdout_text stderr_text =>
        if killedBySignal then
          (append_session_output st "\n[Stopped] Agent interrupted by user.\n", none)
        else
          let parsed := ctx.parse stdout_text stderr_text
          let st' := append_session_output st parsed.content
          let st' := { st' with
            stats := ⟨st'.stats.input_tokens + parsed.stats.input_tokens,
                      st'.stats.output_tokens + parsed.stats.output_tokens⟩ }
          let (commit_msgs, count') := handle_auto_commit ctx st'.commit_count
          ({ st' with output := st'.output ++ commit_msgs, commit_count := count' }, none)
  let (_, cell', _) := update_status st1.cell id Status.review
  let st2 := { st1 with cell := cell' }
  match spawn_error with
  | some e => (st2, .error e)
  | none => (st2, .ok ())

/-- A turn context whose child process exits killed by a signal (the
user-stop scenario); the remaining oracles are arbitrary placeholders that
the killed path never consults. -/
def signalKillCtx : TurnCtx :=
  ⟨fun _ => .error "", fun _ => .interrupted, .exited true "" "",
    fun _ _ => ⟨"", ⟨0, 0⟩⟩⟩

/-- A session in `InProgress` with empty output, zero commits and stats. -/
def inProgressSt : SessionSt :=
  ⟨[], ⟨Status.inProgress, Status.inProgress⟩, 0, ⟨0, 0⟩⟩

/-- C1 counterexample: on a turn whose child is killed by a signal, the
worker appends the `[Stopped] Agent interrupted by user.` line but then
unconditionally transitions the session to `Review` (`task.rs` line 210);
the final status is `Review`, not `Canceled` as claimed. -/
theorem run_session_task_signal_kill_counterexample :
    (run_session_task signalKillCtx inProgressSt "s").1.output =
        ["\n[Stopped] Agent interrupted by user.\n"] ∧
    (run_session_task signalKillCtx inProgressSt "s").1.cell.mem = Status.review ∧
    (run_session_task signalKillCtx inProgressSt "s").1.cell.mem ≠ Status.canceled := by
  decide

/-- C1 (amended): for every turn in which the child terminates due to a
signal, the worker appends exactly the `[Stopped] Agent interrupted by
user.` line, performs no auto-commit, and — the turn having started from
`InProgress` — the session's final status after the turn is `Review`
(both in memory and in storage); the turn itself reports success. -/
theorem run_session_task_signal_kill (ctx : TurnCtx) (st : SessionSt) (id : String)
    (stdout_text stderr_text : String)
    (hspawn : ctx.spawn = .exited true stdout_text stderr_text)
    (hmem : st.cell.mem = Status.inProgress) :
    (run_session_task ctx st id).1.output =
        st.output ++ ["\n[Stopped] Agent interrupted by user.\n"] ∧
    (run_session_task ctx st id).1.cell = ⟨Status.review, Status.review⟩ ∧
    (run_session_task ctx st id).1.commit_count = st.commit_count ∧
    (run_session_task ctx st id).2 = .ok () := by
  unfold run_session_task
  rw [hspawn]
  simp [append_session_output, update_status, hmem, Status.can_transition_to]

/-- Witness for `run_session_task_signal_kill` at a concrete
signal-killed turn. -/
theorem run_session_task_signal_kill_witness :
    (run_session_task signalKillCtx inProgressSt "s").1.output =
        inProgressSt.output ++ ["\n[Stopped] Agent interrupted by user.\n"] ∧
    (run_session_task signalKillCtx inProgressSt "s").1.cell =
        ⟨Status.review, Status.review⟩ ∧
    (run_session_task signalKillCtx inProgressSt "s").1.commit_count =
        inProgressSt.commit_count ∧
    (run_session_task signalKillCtx inProgressSt "s").2 = .ok () :=
  run_session_task_signal_kill signalKillCtx inProgressSt "s" "" "" rfl rfl

/-- A turn context whose child process fails to spawn with error `boom`. -/
def spawnFailCtx : TurnCtx :=
  ⟨fun _ => .error "", fun _ => .interrupted, .failed "boom",
    fun _ _ => ⟨"", ⟨0, 0⟩⟩⟩

/-- C9 counterexample: on spawn failure the worker appends the line
`Failed to spawn process: <err>`, not `Failed to spawn: <err>` as claimed:
at spawn error `boom` no appended chunk reads `Failed to spawn: boom`. -/
theorem run_session_task_spawn_failure_counterexample :
    (run_session_task spawnFailCtx inProgressSt "s").1.output =
        ["Failed to spawn process: boom\n"] ∧
    ¬ ("Failed to spawn: boom\n" ∈ (run_session_task spawnFailCtx inProgressSt "s").1.output) := by
  decide

/-- C9 (amended): for every turn in which spawning the child fails, the
worker appends the line `Failed to spawn process: <err>`, performs no
response parsing and no auto-commit (the result does not depend on the
parse or commit oracles, and commit count and stats are unchanged), the
session — having started from `InProgress` — ends the turn in `Review`,
and the task returns the spawn error. -/
theorem run_session_task_spawn_failure
    (attempts : Nat → Except String String) (assists : Nat → AssistRun)
    (parse : String → String → ParsedResponse)
    (st : SessionSt) (id : String) (e : String)
    (hmem : st.cell.mem = Status.inProgress) :
    run_session_task ⟨attempts, assists, .failed e, parse⟩ st id =
      ({ st with
          output := st.output ++ ["Failed to spawn process: " ++ e ++ "\n"],
          cell := ⟨Status.review, Status.review⟩ },
        .error (rustTrim ("Failed to spawn process: " ++ e ++ "\n"))) := by
  unfold run_session_task
  simp [append_session_output, update_status, hmem, Status.can_transition_to]

/-- Witness for `run_session_task_spawn_failure` at a concrete failed
spawn. -/
theorem run_session_task_spawn_failure_witness :
    run_session_task spawnFailCtx inProgressSt "s" =
      ({ inProgressSt with
          output := inProgressSt.output ++ ["Failed to spawn process: boom\n"],
          cell := ⟨Status.review, Status.review⟩ },
        .error (rustTrim ("Failed to spawn process: boom\n"))) :=
  run_session_task_spawn_failure (fun _ => .error "") (fun _ => .interrupted)
    (fun _ _ => ⟨"", ⟨0, 0⟩⟩) inProgressSt "s" "boom" rfl

/-- The assist loop increments the commit count exactly when it ends in a
successful commit. -/
theorem commit_assist_loop_count (ctx : TurnCtx) :
    ∀ fuel attempt count,
      ((∃ hash, (commit_assist_loop ctx count attempt fuel).2.1 = .ok (some hash)) →
        (commit_assist_loop ctx count attempt fuel).2.2 = count + 1) ∧
      ((∀ hash, (commit_assist_loop ctx count attempt fuel).2.1 ≠ .ok (some hash)) →
        (commit_assist_loop ctx count attempt fuel).2.2 = count) := by
  intro fuel
  induction fuel with
  | zero =>
    intro attempt count
    refine ⟨?_, fun _ => rfl⟩
    rintro ⟨hash, hres⟩
    cases hres
  | succ fuel ih =>
    intro attempt count
    cases hatt : ctx.attempts attempt with
    | ok hash =>
      constructor
      · intro _
        simp [commit_assist_loop, commit_changes, hatt]
      · intro hno
        exfalso
        exact hno hash (by simp [commit_assist_loop, commit_changes, hatt])
    | error e =>
      by_cases hntc : strContainsSub e "Nothing to commit" = true
      · refine ⟨?_, fun _ => by simp [commit_assist_loop, commit_changes, hatt, hntc]⟩
        rintro ⟨hash, hres⟩
        simp [commit_assist_loop, commit_changes, hatt, hntc] at hres
      · by_cases hmax : AUTO_COMMIT_ASSIST_MAX_ATTEMPTS < attempt
        · refine ⟨?_,
            fun _ => by simp [commit_assist_loop, commit_changes, hatt, hntc, hmax]⟩
          rintro ⟨hash, hres⟩
          simp [commit_assist_loop, commit_changes, hatt, hntc, hmax] at hres
        · cases hassist : (run_commit_assist_for_error (ctx.assists attempt)).2 with
          | error ae =>
            refine ⟨?_, fun _ => ?_⟩
            · rintro ⟨hash, hres⟩
              simp [commit_assist_loop, commit_changes, hatt, hntc, hmax, hassist] at hres
            · simp [commit_assist_loop, commit_changes, hatt, hntc, hmax, hassist]
          | ok u =>
            cases u
            have hrec := ih (attempt + 1) count
            constructor
            · rintro ⟨hash, hres⟩
              simp [commit_assist_loop, commit_changes, hatt, hntc, hmax, hassist] at hres ⊢
              exact hrec.1 ⟨hash, hres⟩
            · intro hno
              simp [commit_assist_loop, commit_changes, hatt, hntc, hmax, hassist] at hno ⊢
              exact hrec.2 hno

/-- The assist loop only ever consults the commit oracle on the attempts
`attempt ≤ k < attempt + fuel` and the assist oracle on the attempts
`attempt ≤ k ≤ AUTO_COMMIT_ASSIST_MAX_ATTEMPTS`. -/
theorem commit_assist_loop_oracle_range
    (a1 a2 : Nat → Except String String) (s1 s2 : Nat → AssistRun)
    (sp1 sp2 : SpawnOutcome) (p1 p2 : String → String → ParsedResponse) :
    ∀ fuel attempt count,
      (∀ k, attempt ≤ k → k < attempt + fuel → a1 k = a2 k) →
      (∀ k, attempt ≤ k → k ≤ AUTO_COMMIT_ASSIST_MAX_ATTEMPTS → s1 k = s2 k) →
      commit_assist_loop ⟨a1, s1, sp1, p1⟩ count attempt fuel =
        commit_assist_loop ⟨a2, s2, sp2, p2⟩ count attempt fuel := by
  intro fuel
  induction fuel with
  | zero => intro attempt count _ _; rfl
  | succ fuel ih =>
    intro attempt count ha hs
    have hattempt : a1 attempt = a2 attempt :=
      ha attempt (Nat.le_refl _) (Nat.lt_add_of_pos_right (Nat.succ_pos _))
    cases h2 : a2 attempt with
    | ok hash =>
      have h1 : a1 attempt = .ok hash := hattempt.trans h2
      simp [commit_assist_loop, commit_changes, h1, h2]
    | error e =>
      have h1 : a1 attempt = .error e := hattempt.trans h2
      by_cases hntc : strContainsSub e "Nothing to commit" = true
      · simp [commit_assist_loop, commit_changes, h1, h2, hntc]
      · by_cases hmax : AUTO_COMMIT_ASSIST_MAX_ATTEMPTS < attempt
        · simp [commit_assist_loop, commit_changes, h1, h2, hntc, hmax]
        · have hs1 : s1 attempt = s2 attempt :=
            hs attempt (Nat.le_refl _) (Nat.le_of_not_lt hmax)
          have hrec := ih (attempt + 1) count
            (fun k hk1 hk2 => ha k (Nat.le_of_succ_le hk1) (by omega))
            (fun k hk1 hk2 => hs k (Nat.le_of_succ_le hk1) hk2)
          simp [commit_assist_loop, commit_changes, h1, h2, hntc, hmax, hs1, hrec]

/-- C2: the auto-commit pipeline contract.
(1) a `Nothing to commit` failure on the first attempt appends no visible
message and leaves the commit count unchanged;
(2) a first-attempt success appends exactly the one `[Commit]` line and
records one commit;
(3) after three non-benign failures with three completed assist turns —
each preceded by its `[Commit Assist] Attempt k/3` header — a success on
the final retry appends exactly one `[Commit]` line;
(4) if the final retry still fails, a single `[Commit Error]` line is
appended and no commit is recorded;
(5) the pipeline consults at most four commit attempts and at most three
assist turns: its outcome depends only on those oracle values;
(6) in general the pipeline appends exactly one `[Commit]` line when the
loop ends in a committed hash, no extra line in the nothing-to-commit
case, and exactly one `[Commit Error]` line on failure;
(7) the commit count increases by one exactly when a commit happened. -/
theorem auto_commit_assist_contract (ctx : TurnCtx) (count : Int) :
    (∀ e, ctx.attempts 1 = .error e →
      strContainsSub e "Nothing to commit" = true →
      handle_auto_commit ctx count = ([], count)) ∧
    (∀ h, ctx.attempts 1 = .ok h →
      handle_auto_commit ctx count = ([commit_success_line h], count + 1)) ∧
    (∀ e1 e2 e3 h c1 c2 c3,
      ctx.attempts 1 = .error e1 → ctx.attempts 2 = .error e2 →
      ctx.attempts 3 = .error e3 → ctx.attempts 4 = .ok h →
      strContainsSub e1 "Nothing to commit" = false →
      strContainsSub e2 "Nothing to commit" = false →
      strContainsSub e3 "Nothing to commit" = false →
      ctx.assists 1 = .completed c1 → ctx.assists 2 = .completed c2 →
      ctx.assists 3 = .completed c3 →
      handle_auto_commit ctx count =
        ([commit_assist_header 1 e1, c1, commit_assist_header 2 e2, c2,
          commit_assist_header 3 e3, c3, commit_success_line h], count + 1)) ∧
    (∀ e1 e2 e3 e4 c1 c2 c3,
      ctx.attempts 1 = .error e1 → ctx.attempts 2 = .error e2 →
      ctx.attempts 3 = .error e3 → ctx.attempts 4 = .error e4 →
      strContainsSub e1 "Nothing to commit" = false →
      strContainsSub e2 "Nothing to commit" = false →
      strContainsSub e3 "Nothing to commit" = false →
      strContainsSub e4 "Nothing to commit" = false →
      ctx.assists 1 = .completed c1 → ctx.assists 2 = .completed c2 →
      ctx.assists 3 = .completed c3 →
      handle_auto_commit ctx count =
        ([commit_assist_header 1 e1, c1, commit_assist_header 2 e2, c2,
          commit_assist_header 3 e3, c3, commit_error_line e4], count)) ∧
    (∀ (a' : Nat → Except String String) (s' : Nat → AssistRun)
        (sp' : SpawnOutcome) (p' : String → String → ParsedResponse),
      (∀ k, 1 ≤ k → k ≤ 4 → a' k = ctx.attempts k) →
      (∀ k, 1 ≤ k → k ≤ 3 → s' k = ctx.assists k) →
      handle_auto_commit ⟨a', s', sp', p'⟩ count = handle_auto_commit ctx count) ∧
    (∀ msgs res count2,
      commit_changes_with_assist ctx count = (msgs, res, count2) →
      handle_auto_commit ctx count =
        (msgs ++ (match res with
          | .ok (some hash) => [commit_success_line hash]
          | .ok none => []
          | .error e => [commit_error_line e]), count2)) ∧
    (∀ msgs res count2,
      commit_changes_with_assist ctx count = (msgs, res, count2) →
      ((∃ hash, res = .ok (some hash)) → count2 = count + 1) ∧
      ((∀ hash, res ≠ .ok (some hash)) → count2 = count)) := by
  refine ⟨?_, ?_, ?_, ?_, ?_, ?_, ?_⟩
  · intro e h1 hntc
    simp [handle_auto_commit, commit_changes_with_assist,
      AUTO_COMMIT_ASSIST_MAX_ATTEMPTS, commit_assist_loop, commit_changes, h1, hntc]
  · intro h h1
    simp [handle_auto_commit, commit_changes_with_assist,
      AUTO_COMMIT_ASSIST_MAX_ATTEMPTS, commit_assist_loop, commit_changes, h1]
  · intro e1 e2 e3 h c1 c2 c3 h1 h2 h3 h4 hn1 hn2 hn3 ha1 ha2 ha3
    simp [handle_auto_commit, commit_changes_with_assist,
      AUTO_COMMIT_ASSIST_MAX_ATTEMPTS, commit_assist_loop, commit_changes,
      run_commit_assist_for_error, run_agent_assist_task,
      h1, h2, h3, h4, hn1, hn2, hn3, ha1, ha2, ha3]
  · intro e1 e2 e3 e4 c1 c2 c3 h1 h2 h3 h4 hn1 hn2 hn3 hn4 ha1 ha2 ha3
    simp [handle_auto_commit, commit_changes_with_assist,
      AUTO_COMMIT_ASSIST_MAX_ATTEMPTS, commit_assist_loop, commit_changes,
      run_commit_assist_for_error, run_agent_assist_task,
      h1, h2, h3, h4, hn1, hn2, hn3, hn4, ha1, ha2, ha3]
  · intro a' s' sp' p' hrange srange
    have hloop := commit_assist_loop_oracle_range a' ctx.attempts s' ctx.assists
      sp' ctx.spawn p' ctx.parse
      (AUTO_COMMIT_ASSIST_MAX_ATTEMPTS + 1) 1 count
      (fun k hk1 hk2 => hrange k hk1
        (by simp [AUTO_COMMIT_ASSIST_MAX_ATTEMPTS] at hk2; omega))
      (fun k hk1 hk2 => srange k hk1
        (by simpa [AUTO_COMMIT_ASSIST_MAX_ATTEMPTS] using hk2))
    have hctx : (⟨ctx.attempts, ctx.assists, ctx.spawn, ctx.parse⟩ : TurnCtx) = ctx := rfl
    rw [hctx] at hloop
    simp [handle_auto_commit, commit_changes_with_assist, hloop]
  · intro msgs res count2 hloop
    unfold handle_auto_commit
    rw [hloop]
    rcases res with e | o
    · rfl
    · rcases o with _ | hash
      · simp
      · rfl
  · intro msgs res count2 hloop
    have h := commit_assist_loop_count ctx (AUTO_COMMIT_ASSIST_MAX_ATTEMPTS + 1) 1 count
    rw [show commit_assist_loop ctx count 1 (AUTO_COMMIT_ASSIST_MAX_ATTEMPTS + 1) =
      commit_changes_with_assist ctx count from rfl, hloop] at h
    exact h

/-- The concrete auto-commit scenario of the witness: three non-benign
failures repaired on the final retry. -/
def assistedCommitCtx : TurnCtx :=
  ⟨fun k => if k = 4 then .ok "abc123" else .error ("stash fail " ++ toString k),
    fun k => .completed ("assist output " ++ toString k),
    .exited false "" "", fun _ _ => ⟨"", ⟨0, 0⟩⟩⟩

/-- Witness for `auto_commit_assist_contract`: the third assist finally
produces a committable state; the three headers precede the single
`[Commit]` line and one commit is recorded. -/
theorem auto_commit_assist_contract_witness :
    handle_auto_commit assistedCommitCtx 7 =
      ([commit_assist_header 1 "stash fail 1", "assist output 1",
        commit_assist_header 2 "stash fail 2", "assist output 2",
        commit_assist_header 3 "stash fail 3", "assist output 3",
        commit_success_line "abc123"], 8) :=
  (auto_commit_assist_contract assistedCommitCtx 7).2.2.1
    "stash fail 1" "stash fail 2" "stash fail 3" "abc123"
    "assist output 1" "assist output 2" "assist output 3"
    rfl rfl rfl rfl
    (by decide) (by decide) (by decide)
    rfl rfl rfl

/-! ## Event bus and reducer (`app/mod.rs`) -/

/-- Set-semantics insertion, embedding `HashSet::insert` on id sets. -/
def setInsert (ids : List String) (id : String) : List String :=
  if id ∈ ids then ids else ids ++ [id]

/-- Key-value upsert, embedding `HashMap::insert`: the new value replaces
any previous binding of the key. -/
def mapInsert {β : Type} : List (String × β) → String → β → List (String × β)
  | [], k, v => [(k, v)]
  | (k', v') :: rest, k, v =>
      if k' = k then (k, v) :: rest else (k', v') :: mapInsert rest k v

/-- Key lookup in the association-list embedding of `HashMap`. -/
def mapFind {β : Type} : List (String × β) → String → Option β
  | [], _ => none
  | (k', v) :: rest, k => if k' = k then some v else mapFind rest k

/-- The coalesced event batch, from `AppEventBatch` in `app/mod.rs`. -/
structure AppEventBatch where
  cleared_pr_creation_ids : List String
  cleared_session_history_ids : List String
  git_status_update : Option (Nat × Nat)
  has_git_status_update : Bool
  session_agent_model_updates : List (String × (AgentKind × AgentModel))
  session_ids : List String
  session_permission_mode_updates : List (String × PermissionMode)
  should_force_reload : Bool
  stopped_pr_poll_ids : List String
deriving Repr

/-- From `AppEventBatch::default()`: the empty batch. -/
def emptyAppEventBatch : AppEventBatch :=
  ⟨[], [], none, false, [], [], [], false, []⟩

/-- From `AppEventBatch::collect_event`: folds one event into the batch
with the coalescing semantics of §4.6. -/
def collect_event (batch : AppEventBatch) (event : AppEvent) : AppEventBatch :=
  match event with
  | .gitStatusUpdated status =>
      { batch with has_git_status_update := true, git_status_update := status }
  | .sessionHistoryCleared session_id =>
      { batch with cleared_session_history_ids :=
          setInsert batch.cleared_session_history_ids session_id }
  | .sessionAgentModelUpdated session_agent session_id session_model =>
      { batch with session_agent_model_updates :=
          (mapInsert batch.session_agent_model_updates session_id
            (session_agent, session_model)) }
  | .sessionPermissionModeUpdated permission_mode session_id =>
      { batch with session_permission_mode_updates :=
          mapInsert batch.session_permission_mode_updates session_id permission_mode }
  | .prCreationCleared session_id =>
      { batch with cleared_pr_creation_ids :=
          setInsert batch.cleared_pr_creation_ids session_id }
  | .prPollingStopped session_id =>
      { batch with stopped_pr_poll_ids :=
          setInsert batch.stopped_pr_poll_ids session_id }
  | .refreshSessions =>
      { batch with should_force_reload := true }
  | .sessionUpdated session_id =>
      { batch with session_ids := setInsert batch.session_ids session_id }

/-- From `App::reduce_app_events`: folds a drained event list into one
batch. -/
def reduce_app_events (events : List AppEvent) : AppEventBatch :=
  events.foldl collect_event emptyAppEventBatch

/-- One primitive state mutation performed by
`App::apply_app_event_batch`. -/
inductive ApplyAction
  | reloadSessions
  | setGitStatus (status : Option (Nat × Nat))
  | clearPrCreation (session_id : String)
  | stopPrPolling (session_id : String)
  | clearSessionHistory (session_id : String)
  | setSessionAgentModel (session_id : String) (agent : AgentKind) (model : AgentModel)
  | setSessionPermissionMode (session_id : String) (mode : PermissionMode)
  | syncSessionFromHandle (session_id : String)
deriving DecidableEq, Repr

/-- From `App::apply_app_event_batch`: the sequence of state mutations one
batch performs, in the apply order of the source (force reload first, then
git status, PR-state clears, history clears, agent/model updates,
permission-mode updates, and per-session handle re-sync). -/
def apply_app_event_batch (batch : AppEventBatch) : List ApplyAction :=
  (if batch.should_force_reload then [ApplyAction.reloadSessions] else []) ++
  (if batch.has_git_status_update
    then [ApplyAction.setGitStatus batch.git_status_update] else []) ++
  batch.cleared_pr_creation_ids.map ApplyAction.clearPrCreation ++
  batch.stopped_pr_poll_ids.map ApplyAction.stopPrPolling ++
  batch.cleared_session_history_ids.map ApplyAction.clearSessionHistory ++
  batch.session_agent_model_updates.map
    (fun kv => ApplyAction.setSessionAgentModel kv.1 kv.2.1 kv.2.2) ++
  batch.session_permission_mode_updates.map
    (fun kv => ApplyAction.setSessionPermissionMode kv.1 kv.2) ++
  batch.session_ids.map ApplyAction.syncSessionFromHandle

/-- Whether an event is `RefreshSessions`. -/
def isRefreshEvent : AppEvent → Bool
  | .refreshSessions => true
  | _ => false

theorem setInsert_mem (ids : List String) (id x : String) :
    x ∈ setInsert ids id ↔ x ∈ ids ∨ x = id := by
  unfold setInsert
  by_cases h : id ∈ ids
  · simp only [h, if_true]
    constructor
    · exact Or.inl
    · rintro (hx | rfl)
      · exact hx
      · exact h
  · simp [h]

theorem setInsert_nodup (ids : List String) (id : String) (h : ids.Nodup) :
    (setInsert ids id).Nodup := by
  unfold setInsert
  by_cases hm : id ∈ ids
  · simpa [hm]
  · simp [hm, List.nodup_append, h]

theorem mapFind_mapInsert_self {β : Type} (m : List (String × β)) (k : String) (v : β) :
    mapFind (mapInsert m k v) k = some v := by
  induction m with
  | nil => simp [mapInsert, mapFind]
  | cons kv rest ih =>
    obtain ⟨k', v'⟩ := kv
    by_cases h : k' = k <;> simp [mapInsert, mapFind, h, ih]

theorem mapFind_mapInsert_ne {β : Type} (m : List (String × β)) (k j : String) (v : β)
    (h : k ≠ j) : mapFind (mapInsert m k v) j = mapFind m j := by
  induction m with
  | nil => simp [mapInsert, mapFind, h]
  | cons kv rest ih =>
    obtain ⟨k', v'⟩ := kv
    by_cases hk : k' = k <;> simp [mapInsert, mapFind, hk, h, ih]

theorem foldl_collect_reload (events : List AppEvent) :
    ∀ b : AppEventBatch,
      (events.foldl collect_event b).should_force_reload =
        (b.should_force_reload || events.any isRefreshEvent) := by
  induction events with
  | nil => intro b; simp
  | cons e rest ih =>
    intro b
    rw [List.foldl_cons, ih, List.any_cons]
    cases e <;> simp [collect_event, isRefreshEvent, Bool.or_assoc]

theorem foldl_collect_git (events : List AppEvent) :
    ∀ b : AppEventBatch, (∀ w, AppEvent.gitStatusUpdated w ∉ events) →
      (events.foldl collect_event b).git_status_update = b.git_status_update ∧
      (events.foldl collect_event b).has_git_status_update = b.has_git_status_update := by
  induction events with
  | nil => intro b _; exact ⟨rfl, rfl⟩
  | cons e rest ih =>
    intro b hno
    have hrest : ∀ w, AppEvent.gitStatusUpdated w ∉ rest :=
      fun w hw => hno w (List.mem_cons_of_mem _ hw)
    rw [List.foldl_cons]
    cases e with
    | gitStatusUpdated w => exact absurd (List.mem_cons_self _ _) (hno w)
    | sessionHistoryCleared id => simpa [collect_event] using ih _ hrest
    | sessionAgentModelUpdated a id m => simpa [collect_event] using ih _ hrest
    | sessionPermissionModeUpdated pm id => simpa [collect_event] using ih _ hrest
    | prCreationCleared id => simpa [collect_event] using ih _ hrest
    | prPollingStopped id => simpa [collect_event] using ih _ hrest
    | refreshSessions => simpa [collect_event] using ih _ hrest
    | sessionUpdated id => simpa [collect_event] using ih _ hrest

theorem foldl_collect_session_ids (events : List AppEvent) :
    ∀ b : AppEventBatch,
      (b.session_ids.Nodup → (events.foldl collect_event b).session_ids.Nodup) ∧
      (∀ id, id ∈ (events.foldl collect_event b).session_ids ↔
        id ∈ b.session_ids ∨ AppEvent.sessionUpdated id ∈ events) := by
  induction events with
  | nil => intro b; simp
  | cons e rest ih =>
    intro b
    rw [List.foldl_cons]
    refine ⟨fun hnd => (ih (collect_event b e)).1 ?_, fun id => ?_⟩
    · cases e <;> simp [collect_event, hnd, setInsert_nodup]
    · rw [(ih (collect_event b e)).2 id]
      cases e <;>
        simp [collect_event, setInsert_mem, or_assoc]

theorem foldl_collect_agent_model (events : List AppEvent) :
    ∀ (b : AppEventBatch) (id : String),
      (∀ a m, AppEvent.sessionAgentModelUpdated a id m ∉ events) →
      mapFind (events.foldl collect_event b).session_agent_model_updates id =
        mapFind b.session_agent_model_updates id := by
  induction events with
  | nil => intro b id _; rfl
  | cons e rest ih =>
    intro b id hno
    have hrest : ∀ a m, AppEvent.sessionAgentModelUpdated a id m ∉ rest :=
      fun a m hw => hno a m (List.mem_cons_of_mem _ hw)
    rw [List.foldl_cons]
    cases e with
    | sessionAgentModelUpdated a j m =>
      have hne : j ≠ id := by
        rintro rfl
        exact hno a m (List.mem_cons_self _ _)
      rw [ih _ id hrest]
      simp [collect_event, mapFind_mapInsert_ne _ _ _ _ hne]
    | gitStatusUpdated w => simpa [collect_event] using ih _ id hrest
    | sessionHistoryCleared j => simpa [collect_event] using ih _ id hrest
    | sessionPermissionModeUpdated pm j => simpa [collect_event] using ih _ id hrest
    | prCreationCleared j => simpa [collect_event] using ih _ id hrest
    | prPollingStopped j => simpa [collect_event] using ih _ id hrest
    | refreshSessions => simpa [collect_event] using ih _ id hrest
    | sessionUpdated j => simpa [collect_event] using ih _ id hrest

theorem foldl_collect_permission_mode (events : List AppEvent) :
    ∀ (b : AppEventBatch) (id : String),
      (∀ pm, AppEvent.sessionPermissionModeUpdated pm id ∉ events) →
      mapFind (events.foldl collect_event b).session_permission_mode_updates id =
        mapFind b.session_permission_mode_updates id := by
  induction events with
  | nil => intro b id _; rfl
  | cons e rest ih =>
    intro b id hno
    have hrest : ∀ pm, AppEvent.sessionPermissionModeUpdated pm id ∉ rest :=
      fun pm hw => hno pm (List.mem_cons_of_mem _ hw)
    rw [List.foldl_cons]
    cases e with
    | sessionPermissionModeUpdated pm j =>
      have hne : j ≠ id := by
        rintro rfl
        exact hno pm (List.mem_cons_self _ _)
      rw [ih _ id hrest]
      simp [collect_event, mapFind_mapInsert_ne _ _ _ _ hne]
    | gitStatusUpdated w => simpa [collect_event] using ih _ id hrest
    | sessionHistoryCleared j => simpa [collect_event] using ih _ id hrest
    | sessionAgentModelUpdated a j m => simpa [collect_event] using ih _ id hrest
    | prCreationCleared j => simpa [collect_event] using ih _ id hrest
    | prPollingStopped j => simpa [collect_event] using ih _ id hrest
    | refreshSessions => simpa [collect_event] using ih _ id hrest
    | sessionUpdated j => simpa [collect_event] using ih _ id hrest

theorem count_reload_map_eq_zero {α : Type} (f : α → ApplyAction) (l : List α)
    (h : ∀ x, f x ≠ ApplyAction.reloadSessions) :
    List.count ApplyAction.reloadSessions (l.map f) = 0 := by
  rw [List.count_eq_zero]
  simp only [List.mem_map, not_exists]
  rintro x ⟨_, hx⟩
  exact h x hx

/-- C5: reducer coalescing.  For any event batch drained in one tick:
any positive number of `RefreshSessions` events yields exactly one
session-list reload; only the last `GitStatusUpdated` payload takes
effect; `SessionUpdated` ids are de-duplicated (so per-session handle
re-sync runs once per distinct id); and agent/model and permission-mode
updates are last-write-wins per session id. -/
theorem reducer_coalescing (events : List AppEvent) :
    (List.count ApplyAction.reloadSessions
        (apply_app_event_batch (reduce_app_events events)) =
      if events.any isRefreshEvent then 1 else 0) ∧
    (∀ l1 v l2, events = l1 ++ AppEvent.gitStatusUpdated v :: l2 →
      (∀ w, AppEvent.gitStatusUpdated w ∉ l2) →
      (reduce_app_events events).has_git_status_update = true ∧
      (reduce_app_events events).git_status_update = v) ∧
    ((reduce_app_events events).session_ids.Nodup ∧
      (∀ id, id ∈ (reduce_app_events events).session_ids ↔
        AppEvent.sessionUpdated id ∈ events)) ∧
    (∀ l1 a id m l2,
      events = l1 ++ AppEvent.sessionAgentModelUpdated a id m :: l2 →
      (∀ a' m', AppEvent.sessionAgentModelUpdated a' id m' ∉ l2) →
      mapFind (reduce_app_events events).session_agent_model_updates id =
        some (a, m)) ∧
    (∀ l1 pm id l2,
      events = l1 ++ AppEvent.sessionPermissionModeUpdated pm id :: l2 →
      (∀ pm', AppEvent.sessionPermissionModeUpdated pm' id ∉ l2) →
      mapFind (reduce_app_events events).session_permission_mode_updates id =
        some pm) := by
  refine ⟨?_, ?_, ?_, ?_, ?_⟩
  · have hflag : (reduce_app_events events).should_force_reload =
        events.any isRefreshEvent := by
      rw [reduce_app_events, foldl_collect_reload]
      rfl
    unfold apply_app_event_batch
    rw [List.count_append, List.count_append, List.count_append,
      List.count_append, List.count_append, List.count_append,
      List.count_append]
    rw [count_reload_map_eq_zero _ _ (fun x => by simp),
      count_reload_map_eq_zero _ _ (fun x => by simp),
      count_reload_map_eq_zero _ _ (fun x => by simp),
      count_reload_map_eq_zero _ _ (fun x => by simp),
      count_reload_map_eq_zero _ _ (fun x => by simp),
      count_reload_map_eq_zero _ _ (fun x => by simp)]
    rw [hflag]
    cases hany : events.any isRefreshEvent <;>
      cases hgit : (reduce_app_events events).has_git_status_update <;>
      simp [hany, hgit]
  · rintro l1 v l2 rfl hno
    rw [reduce_app_events, List.foldl_append, List.foldl_cons]
    have h := foldl_collect_git l2 (collect_event (l1.foldl collect_event emptyAppEventBatch) (AppEvent.gitStatusUpdated v)) hno
    rw [h.1, h.2]
    exact ⟨rfl, rfl⟩
  · constructor
    · exact (foldl_collect_session_ids events emptyAppEventBatch).1 List.nodup_nil
    · intro id
      rw [reduce_app_events,
        (foldl_collect_session_ids events emptyAppEventBatch).2 id]
      simp [emptyAppEventBatch]
  · rintro l1 a id m l2 rfl hno
    rw [reduce_app_events, List.foldl_append, List.foldl_cons]
    rw [foldl_collect_agent_model l2 _ id hno]
    simp [collect_event, mapFind_mapInsert_self]
  · rintro l1 pm id l2 rfl hno
    rw [reduce_app_events, List.foldl_append, List.foldl_cons]
    rw [foldl_collect_permission_mode l2 _ id hno]
    simp [collect_event, mapFind_mapInsert_self]

/-- A concrete drained tick: two refreshes, two git updates, a duplicated
session update, and superseded agent/model and permission updates. -/
def exTickEvents : List AppEvent :=
  [AppEvent.refreshSessions,
   AppEvent.gitStatusUpdated (some (1, 2)),
   AppEvent.refreshSessions,
   AppEvent.sessionUpdated "a",
   AppEvent.sessionUpdated "a",
   AppEvent.sessionAgentModelUpdated AgentKind.claude "a" "m1",
   AppEvent.sessionAgentModelUpdated AgentKind.gemini "a" "m2",
   AppEvent.sessionPermissionModeUpdated PermissionMode.plan "a",
   AppEvent.sessionPermissionModeUpdated PermissionMode.autonomous "a",
   AppEvent.gitStatusUpdated (some (3, 4))]

/-- Witness for `reducer_coalescing` on `exTickEvents`. -/
theorem reducer_coalescing_witness :
    List.count ApplyAction.reloadSessions
        (apply_app_event_batch (reduce_app_events exTickEvents)) = 1 ∧
    (reduce_app_events exTickEvents).git_status_update = some (3, 4) ∧
    (reduce_app_events exTickEvents).session_ids.Nodup ∧
    "a" ∈ (reduce_app_events exTickEvents).session_ids ∧
    mapFind (reduce_app_events exTickEvents).session_agent_model_updates "a" =
      some (AgentKind.gemini, "m2") ∧
    mapFind (reduce_app_events exTickEvents).session_permission_mode_updates "a" =
      some PermissionMode.autonomous := by
  have h := reducer_coalescing exTickEvents
  refine ⟨h.1.trans (by decide), ?_, h.2.2.1.1, ?_, ?_, ?_⟩
  · exact (h.2.1
      [AppEvent.refreshSessions,
       AppEvent.gitStatusUpdated (some (1, 2)),
       AppEvent.refreshSessions,
       AppEvent.sessionUpdated "a",
       AppEvent.sessionUpdated "a",
       AppEvent.sessionAgentModelUpdated AgentKind.claude "a" "m1",
       AppEvent.sessionAgentModelUpdated AgentKind.gemini "a" "m2",
       AppEvent.sessionPermissionModeUpdated PermissionMode.plan "a",
       AppEvent.sessionPermissionModeUpdated PermissionMode.autonomous "a"]
      (some (3, 4)) [] rfl (by simp)).2
  · exact (h.2.2.1.2 "a").mpr (by decide)
  · exact h.2.2.2.1
      [AppEvent.refreshSessions,
       AppEvent.gitStatusUpdated (some (1, 2)),
       AppEvent.refreshSessions,
       AppEvent.sessionUpdated "a",
       AppEvent.sessionUpdated "a",
       AppEvent.sessionAgentModelUpdated AgentKind.claude "a" "m1"]
      AgentKind.gemini "a" "m2"
      [AppEvent.sessionPermissionModeUpdated PermissionMode.plan "a",
       AppEvent.sessionPermissionModeUpdated PermissionMode.autonomous "a",
       AppEvent.gitStatusUpdated (some (3, 4))]
      rfl (by intro a' m'; simp)
  · exact h.2.2.2.2
      [AppEvent.refreshSessions,
       AppEvent.gitStatusUpdated (some (1, 2)),
       AppEvent.refreshSessions,
       AppEvent.sessionUpdated "a",
       AppEvent.sessionUpdated "a",
       AppEvent.sessionAgentModelUpdated AgentKind.claude "a" "m1",
       AppEvent.sessionAgentModelUpdated AgentKind.gemini "a" "m2",
       AppEvent.sessionPermissionModeUpdated PermissionMode.plan "a"]
      PermissionMode.autonomous "a"
      [AppEvent.gitStatusUpdated (some (3, 4))]
      rfl (by intro pm'; simp)

/-! ## Squash merge (`infra/git/merge.rs`) -/

/-- Outcome of `squash_merge`, from `SquashMergeOutcome`. -/
inductive SquashMergeOutcome
  | committed
  | alreadyPresentInTarget
deriving DecidableEq, Repr

/-- One git invocation that `squash_merge` could issue inside `repo_path`.
`switchBranch` (a `git checkout`/`git switch`) is included so that "never
switches branches" is expressible; the source never issues it. -/
inductive GitCmd
  | mergeSquash (source_branch : String)
  | diffCachedQuiet
  | commit (no_verify : Bool) (message : String)
  | switchBranch (branch : String)
deriving DecidableEq, Repr

/-- Abstraction of the git world `squash_merge` observes: the branch
`detect_git_info_sync` reports for `repo_path`, the outcome of
`git merge --squash` (error text = stderr), the exit code of
`git diff --cached --quiet` (`none` means killed by a signal), its detail
text for the unexpected-code error, and the outcome of `git commit`. -/
structure GitEnv where
  current_branch : Option String
  merge_squash : Except String Unit
  diff_cached_code : Option Int
  diff_cached_detail : String
  commit : Except String Unit

/-- From `squash_merge` in `infra/git/merge.rs`: verifies the repository
is already on the target branch, performs `git merge --squash`, inspects
the staged index against `HEAD`, and commits with `--no-verify` when the
index differs.  Returns the ordered trace of git commands issued and the
result. -/
def squash_merge (env : GitEnv)
    (repo_path source_branch target_branch commit_message : String) :
    List GitCmd × Except String SquashMergeOutcome :=
  match env.current_branch with
  | none => ([], .error ("Failed to detect current branch in " ++ repo_path))
  | some current_branch =>
    if current_branch ≠ target_branch then
      ([], .error ("Cannot merge: repository is on '" ++ current_branch ++
        "' but expected\n                 '" ++ target_branch ++
        "'. Switch to '" ++ target_branch ++ "' first."))
    else
      match env.merge_squash with
      | .error stderr =>
          ([GitCmd.mergeSquash source_branch],
            .error ("Failed to squash merge " ++ source_branch ++ ": " ++ rustTrim stderr))
      | .ok () =>
          if env.diff_cached_code = some 0 then
            ([GitCmd.mergeSquash source_branch, GitCmd.diffCachedQuiet],
              .ok .alreadyPresentInTarget)
          else if env.diff_cached_code ≠ some 1 then
            ([GitCmd.mergeSquash source_branch, GitCmd.diffCachedQuiet],
              .error ("Failed to inspect staged squash merge diff: " ++
                env.diff_cached_detail))
          else
            match env.commit with
            | .error stderr =>
                ([GitCmd.mergeSquash source_branch, GitCmd.diffCachedQuiet,
                  GitCmd.commit true commit_message],
                  .error ("Failed to commit squash merge: " ++ rustTrim stderr))
            | .ok () =>
                ([GitCmd.mergeSquash source_branch, GitCmd.diffCachedQuiet,
                  GitCmd.commit true commit_message],
                  .ok .committed)

/-- C4: `squash_merge` first verifies `repo_path` is on `target_branch`
and fails without issuing any git command (in particular without merging)
when it is not; it never switches branches; when the staged index equals
`HEAD` after the squash it returns `AlreadyPresentInTarget` without
committing; otherwise it commits with pre-commit hooks skipped
(`--no-verify`) and returns `Committed`. -/
theorem squash_merge_contract (env : GitEnv)
    (repo_path source_branch target_branch commit_message : String) :
    (env.current_branch ≠ some target_branch →
      (squash_merge env repo_path source_branch target_branch commit_message).1 = [] ∧
      ∃ e, (squash_merge env repo_path source_branch target_branch commit_message).2 =
        .error e) ∧
    (∀ b, GitCmd.switchBranch b ∉
      (squash_merge env repo_path source_branch target_branch commit_message).1) ∧
    (env.current_branch = some target_branch → env.merge_squash = .ok () →
      env.diff_cached_code = some 0 →
      (squash_merge env repo_path source_branch target_branch commit_message).2 =
          .ok .alreadyPresentInTarget ∧
      ∀ v m, GitCmd.commit v m ∉
        (squash_merge env repo_path source_branch target_branch commit_message).1) ∧
    (env.current_branch = some target_branch → env.merge_squash = .ok () →
      env.diff_cached_code = some 1 → env.commit = .ok () →
      squash_merge env repo_path source_branch target_branch commit_message =
        ([GitCmd.mergeSquash source_branch, GitCmd.diffCachedQuiet,
          GitCmd.commit true commit_message], .ok .committed)) := by
  refine ⟨?_, ?_, ?_, ?_⟩
  · intro hne
    unfold squash_merge
    cases hcb : env.current_branch with
    | none => exact ⟨rfl, _, rfl⟩
    | some cb =>
      have : cb ≠ target_branch := by
        rintro rfl
        exact hne hcb
      simp [this]
  · intro b
    unfold squash_merge
    cases env.current_branch with
    | none => simp
    | some cb =>
      by_cases hne : cb ≠ target_branch
      · simp [hne]
      · cases env.merge_squash with
        | error stderr => simp [hne]
        | ok u =>
          cases u
          by_cases h0 : env.diff_cached_code = some 0
          · simp [hne, h0]
          · by_cases h1 : env.diff_cached_code ≠ some 1
            · simp [hne, h0, h1]
            · cases env.commit with
              | error stderr => simp [hne, h0, h1]
              | ok u => cases u; simp [hne, h0, h1]
  · intro hcb hms hdc
    unfold squash_merge
    rw [hcb, hms, hdc]
    simp
  · intro hcb hms hdc hcm
    unfold squash_merge
    rw [hcb, hms, hdc, hcm]
    simp

/-- Witness for `squash_merge_contract`: a clean merge with staged changes
commits with hooks skipped. -/
theorem squash_merge_contract_witness :
    squash_merge ⟨some "main", .ok (), some 1, "", .ok ()⟩
        "/repo" "agentty/abc" "main" "title" =
      ([GitCmd.mergeSquash "agentty/abc", GitCmd.diffCachedQuiet,
        GitCmd.commit true "title"], .ok .committed) :=
  (squash_merge_contract ⟨some "main", .ok (), some 1, "", .ok ()⟩
    "/repo" "agentty/abc" "main" "title").2.2.2 rfl rfl rfl rfl

/-! ## Singleton process lock (`ag-cli/src/lock.rs`, `ag-cli/src/main.rs`) -/

/-- Constant `LOCK_DIR` in `lock.rs`. -/
def LOCK_DIR : String := "/var/tmp/.agentty"

/-- Constant `LOCK_PATH` in `lock.rs`. -/
def LOCK_PATH : String := "/var/tmp/.agentty/lock"

/-- Error type `LockError` in `lock.rs`. -/
inductive LockError
  | alreadyRunning (pid : String)
  | io (err : String)
deriving DecidableEq, Repr

/-- The `Display` implementation of `LockError`. -/
def LockError.display : LockError → String
  | .alreadyRunning pid =>
      "Another agentty session is already running (PID: " ++ pid ++ ")"
  | .io err => "Failed to acquire session lock: " ++ err

/-- Result of the `flock(fd, LOCK_EX | LOCK_NB)` call: acquired, already
held elsewhere (`EWOULDBLOCK`), or some other OS error. -/
inductive FlockResult
  | acquired
  | wouldBlock
  | otherError (err : String)
deriving DecidableEq, Repr

/-- The filesystem world `acquire_lock` observes: whether
`create_dir_all(LOCK_DIR)` and opening `LOCK_PATH` succeed, the
non-blocking exclusive `flock` outcome, the current contents of the
lockfile, and this process's PID. -/
structure LockEnv where
  create_dir : Except String Unit
  open_file : Except String Unit
  flock : FlockResult
  file_contents : String
  pid : Nat

/-- From `acquire_lock` in `lock.rs`: creates `LOCK_DIR`, opens (creating)
`LOCK_PATH`, attempts a non-blocking exclusive advisory lock; on
contention reads the lockfile and reports the owner PID (trimmed); on
success truncates the file and writes this process's PID.  Returns the
lockfile contents after a successful acquisition. -/
def acquire_lock (env : LockEnv) : Except LockError String :=
  match env.create_dir with
  | .error e => .error (.io e)
  | .ok () =>
    match env.open_file with
    | .error e => .error (.io e)
    | .ok () =>
      match env.flock with
      | .wouldBlock => .error (.alreadyRunning (rustTrim env.file_contents))
      | .otherError e => .error (.io e)
      | .acquired => .ok (toString env.pid)

/-- Observable outcome of the lock gate at the top of `main`
(`ag-cli/src/main.rs`): lines printed to stderr, the process exit code of
the gate (1 on lock failure, 0 when startup proceeds), and the lockfile
contents held for the process lifetime. -/
structure MainLockOutcome where
  stderr : List String
  exit_code : Nat
  lock_contents : Option String
deriving DecidableEq, Repr

/-- From `main` in `ag-cli/src/main.rs`: on lock failure prints
`Error: <display>` to stderr and exits with code 1; otherwise keeps the
lock handle alive and continues. -/
def main_lock_gate (env : LockEnv) : MainLockOutcome :=
  match acquire_lock env with
  | .error e => ⟨["Error: " ++ e.display], 1, none⟩
  | .ok contents => ⟨[], 0, some contents⟩

/-- C6 counterexample: the lockfile is `/var/tmp/.agentty/lock`, not under
`~/.agentty/`, and the contention report reads `Another agentty session is
already running (PID: <n>)` (prefixed `Error: `), not `Another session is
running (PID: <n>)`: at lockfile contents `42` the emitted stderr line
does not contain the claimed phrase. -/
theorem lock_gate_counterexample :
    LOCK_PATH = "/var/tmp/.agentty/lock" ∧
    List.isPrefixOf "~/.agentty".data LOCK_PATH.data = false ∧
    main_lock_gate ⟨.ok (), .ok (), .wouldBlock, "42", 7⟩ =
      ⟨["Error: Another agentty session is already running (PID: 42)"], 1, none⟩ ∧
    strContainsSub "Error: Another agentty session is already running (PID: 42)"
      "Another session is running" = false := by
  decide

/-- C6 (amended): on startup the process creates (or opens) the lockfile
`/var/tmp/.agentty/lock`, takes a non-blocking exclusive advisory lock on
it, and writes its own PID into the file; when the lock is already held
by another process, it reads the PID from the file and reports
`Error: Another agentty session is already running (PID: <n>)` on stderr
and exits with code 1. -/
theorem lock_gate_contract (env : LockEnv)
    (hdir : env.create_dir = .ok ()) (hopen : env.open_file = .ok ()) :
    (env.flock = .acquired →
      main_lock_gate env = ⟨[], 0, some (toString env.pid)⟩) ∧
    (env.flock = .wouldBlock →
      main_lock_gate env =
        ⟨["Error: Another agentty session is already running (PID: " ++
            rustTrim env.file_contents ++ ")"], 1, none⟩) := by
  constructor
  · intro hflock
    unfold main_lock_gate acquire_lock
    rw [hdir, hopen, hflock]
  · intro hflock
    unfold main_lock_gate acquire_lock
    rw [hdir, hopen, hflock]
    rfl

/-- Witness for `lock_gate_contract`: a contended lock whose file holds
PID `42`. -/
theorem lock_gate_contract_witness :
    main_lock_gate ⟨.ok (), .ok (), .wouldBlock, " 42\n", 7⟩ =
      ⟨["Error: Another agentty session is already running (PID: " ++
          rustTrim " 42\n" ++ ")"], 1, none⟩ :=
  (lock_gate_contract ⟨.ok (), .ok (), .wouldBlock, " 42\n", 7⟩ rfl rfl).2 rfl

/-! ## Session loading (`app/session/load.rs`) -/

/-- Test `matches!(status, Status::Done | Status::Canceled)` from
`SessionManager::load_sessions`. -/
def is_terminal_status (status : Status) : Bool :=
  match status with
  | .done | .canceled => true
  | _ => false

/-- From `session_folder(base, id)`: the worktree folder of a session. -/
def session_folder (base id : String) : String := base ++ "/" ++ id

/-- A persisted session row, restricted to the columns the loading filter
consults. -/
structure SessionRowModel where
  id : String
  status : Status
deriving DecidableEq, Repr

/-- An in-memory session as produced by `load_sessions`, restricted to the
fields the listing invariant mentions. -/
structure LoadedSession where
  id : String
  status : Status
  folder : String
deriving DecidableEq, Repr

/-- From `SessionManager::load_sessions` in `app/session/load.rs`: builds
the in-memory listing from persisted rows, dropping every row that is not
in a terminal status and whose worktree folder is not an existing
directory (`if !folder.is_dir() && !is_terminal_status { continue; }`).
`is_dir` abstracts the filesystem check. -/
def load_sessions (base : String) (rows : List SessionRowModel)
    (is_dir : String → Bool) : List LoadedSession :=
  rows.filterMap (fun row =>
    let folder := session_folder base row.id
    if !(is_dir folder) && !(is_terminal_status row.status) then
      none
    else
      some ⟨row.id, row.status, folder⟩)

/-- C7: a loaded listing contains exactly the rows whose folder exists or
whose status is terminal; hence every listed session not in
`{Done, Canceled}` has an existing folder, rows in terminal status are
listed even when the folder is missing, and non-terminal rows with a
missing folder are dropped. -/
theorem load_sessions_folder_invariant (base : String)
    (rows : List SessionRowModel) (is_dir : String → Bool) :
    (∀ s ∈ load_sessions base rows is_dir,
      is_terminal_status s.status = false → is_dir s.folder = true) ∧
    (∀ s, s ∈ load_sessions base rows is_dir ↔
      ∃ row ∈ rows,
        (is_dir (session_folder base row.id) ∨ is_terminal_status row.status) ∧
        s = ⟨row.id, row.status, session_folder base row.id⟩) := by
  have hmem : ∀ s, s ∈ load_sessions base rows is_dir ↔
      ∃ row ∈ rows,
        (is_dir (session_folder base row.id) = true ∨
          is_terminal_status row.status = true) ∧
        s = ⟨row.id, row.status, session_folder base row.id⟩ := by
    intro s
    unfold load_sessions
    rw [List.mem_filterMap]
    constructor
    · rintro ⟨row, hrow, hsome⟩
      cases hd : is_dir (session_folder base row.id) with
      | true =>
        refine ⟨row, hrow, Or.inl hd, ?_⟩
        simp [hd] at hsome
        exact hsome.symm
      | false =>
        cases ht : is_terminal_status row.status with
        | true =>
          refine ⟨row, hrow, Or.inr ht, ?_⟩
          simp [hd, ht] at hsome
          exact hsome.symm
        | false => simp [hd, ht] at hsome
    · rintro ⟨row, hrow, hkeep, rfl⟩
      refine ⟨row, hrow, ?_⟩
      rcases hkeep with h | h <;> simp [h]
  refine ⟨?_, hmem⟩
  intro s hs hterm
  rcases (hmem s).mp hs with ⟨row, _, hkeep, rfl⟩
  rcases hkeep with h | h
  · simpa using h
  · simp only at hterm
    rw [hterm] at h
    cases h

/-- Witness for `load_sessions_folder_invariant`: a live session whose
folder is missing is dropped, a `Done` one is kept. -/
theorem load_sessions_folder_invariant_witness :
    (⟨"a", Status.inProgress, "/base/a"⟩ : LoadedSession) ∉
      load_sessions "/base"
        [⟨"a", Status.inProgress⟩, ⟨"b", Status.done⟩] (fun _ => false) ∧
    (⟨"b", Status.done, "/base/b"⟩ : LoadedSession) ∈
      load_sessions "/base"
        [⟨"a", Status.inProgress⟩, ⟨"b", Status.done⟩] (fun _ => false) := by
  constructor
  · intro hmem
    have h := (load_sessions_folder_invariant "/base"
      [⟨"a", Status.inProgress⟩, ⟨"b", Status.done⟩] (fun _ => false)).1
      _ hmem (by decide)
    simp at h
  · exact ((load_sessions_folder_invariant "/base"
      [⟨"a", Status.inProgress⟩, ⟨"b", Status.done⟩] (fun _ => false)).2
      ⟨"b", Status.done, "/base/b"⟩).mpr
      ⟨⟨"b", Status.done⟩, by decide, Or.inr (by decide), by decide⟩

/-! ## Persisted session ordering (`infra/db.rs`) -/

/-- A persisted session row, restricted to the columns the ordering query
consults. -/
structure DbSessionRow where
  id : String
  project_id : Int
  updated_at : Int
deriving DecidableEq, Repr

/-- Lexicographic `≤` on character lists: the text ordering the store
uses for the id tie-break, in a form the kernel can evaluate. -/
def strLeChars : List Char → List Char → Bool
  | [], _ => true
  | _ :: _, [] => false
  | a :: as, b :: bs => if a = b then strLeChars as bs else decide (a < b)

/-- Lexicographic `≤` on strings. -/
def str_le (a b : String) : Bool := strLeChars a.data b.data

theorem strLeChars_total : ∀ xs ys,
    strLeChars xs ys = true ∨ strLeChars ys xs = true
  | [], _ => Or.inl rfl
  | _ :: _, [] => Or.inr rfl
  | a :: as, b :: bs => by
    by_cases hab : a = b
    · subst hab
      rcases strLeChars_total as bs with h | h
      · exact Or.inl (by simp [strLeChars, h])
      · exact Or.inr (by simp [strLeChars, h])
    · have hba : b ≠ a := fun hc => hab hc.symm
      rcases lt_or_gt_of_ne hab with h | h
      · exact Or.inl (by simp [strLeChars, hab, h])
      · exact Or.inr (by simp [strLeChars, hba, h])

theorem strLeChars_trans : ∀ xs ys zs, strLeChars xs ys = true →
    strLeChars ys zs = true → strLeChars xs zs = true
  | [], _, _ => fun _ _ => rfl
  | _ :: _, [], _ => fun h _ => by cases h
  | _ :: _, _ :: _, [] => fun _ h => by cases h
  | a :: as, b :: bs, c :: cs => by
    intro h1 h2
    by_cases hab : a = b
    · subst hab
      by_cases hbc : a = c
      · subst hbc
        simp [strLeChars] at h1 h2 ⊢
        exact strLeChars_trans as bs cs h1 h2
      · simp [strLeChars, hbc] at h2 ⊢
        exact h2
    · by_cases hbc : b = c
      · subst hbc
        simp [strLeChars, hab] at h1 ⊢
        exact h1
      · simp [strLeChars, hab] at h1
        simp [strLeChars, hbc] at h2
        have hac : a < c := lt_trans h1 h2
        have hne : a ≠ c := ne_of_lt hac
        simp [strLeChars, hne, hac]

/-- Modelled from the spec: the result ordering of
`Database::load_sessions_for_project`.  The `infra/db.rs` module is
absent from the sources (`infra/mod.rs` declares it and
`app/session/load.rs` calls it); per §4.1 the rows come back ordered by
`updated_at` descending with ties broken by id. -/
def session_row_order (a b : DbSessionRow) : Prop :=
  b.updated_at < a.updated_at ∨
    (a.updated_at = b.updated_at ∧ str_le a.id b.id = true)

instance session_row_order_decidable : DecidableRel session_row_order := fun a b => by
  unfold session_row_order
  infer_instance

instance session_row_order_total : IsTotal DbSessionRow session_row_order := by
  constructor
  intro a b
  rcases lt_trichotomy a.updated_at b.updated_at with h | h | h
  · exact Or.inr (Or.inl h)
  · rcases strLeChars_total a.id.data b.id.data with hid | hid
    · exact Or.inl (Or.inr ⟨h, hid⟩)
    · exact Or.inr (Or.inr ⟨h.symm, hid⟩)
  · exact Or.inl (Or.inl h)

instance session_row_order_trans : IsTrans DbSessionRow session_row_order := by
  constructor
  rintro a b c (hab | ⟨hab, hid⟩) (hbc | ⟨hbc, hid'⟩)
  · exact Or.inl (lt_trans hbc hab)
  · exact Or.inl (hbc ▸ hab)
  · exact Or.inl (lt_of_lt_of_le hbc (le_of_eq hab.symm))
  · exact Or.inr ⟨hab.trans hbc, strLeChars_trans _ _ _ hid hid'⟩

/-- Modelled from the spec: `Database::load_sessions_for_project` — the
rows of the given project, ordered by `updated_at` descending with ties
broken by session id. -/
def load_sessions_for_project (project_id : Int) (rows : List DbSessionRow) :
    List DbSessionRow :=
  (rows.filter (fun row => row.project_id = project_id)).insertionSort
    session_row_order

/-- C8: loading a project's persisted sessions returns exactly that
project's rows (as a permutation of the filtered input) in an order where
every earlier row has a strictly larger `updated_at`, or an equal
`updated_at` and a `≤` session id. -/
theorem load_sessions_for_project_ordered (project_id : Int)
    (rows : List DbSessionRow) :
    List.Perm (load_sessions_for_project project_id rows)
      (rows.filter (fun row => row.project_id = project_id)) ∧
    List.Pairwise
      (fun a b => b.updated_at < a.updated_at ∨
        (a.updated_at = b.updated_at ∧ str_le a.id b.id = true))
      (load_sessions_for_project project_id rows) ∧
    (∀ row ∈ load_sessions_for_project project_id rows,
      row.project_id = project_id) := by
  refine ⟨List.perm_insertionSort _ _, ?_, ?_⟩
  · exact List.sorted_insertionSort session_row_order _
  intro row hrow
  have hmem : row ∈ rows.filter (fun row => row.project_id = project_id) :=
    (List.perm_insertionSort session_row_order _).mem_iff.mp hrow
  simpa using (List.mem_filter.mp hmem).2

/-- Example rows for the ordering witness: two projects, with an
`updated_at` tie inside project 1. -/
def exDbRows : List DbSessionRow :=
  [⟨"a", 1, 5⟩, ⟨"b", 2, 9⟩, ⟨"c", 1, 7⟩, ⟨"d", 1, 7⟩]

/-- Witness for `load_sessions_for_project_ordered`: project 1's listing
comes back as `c, d, a` (descending `updated_at`, tie `c`/`d` broken by
id), and a listed row belongs to project 1. -/
theorem load_sessions_for_project_ordered_witness :
    load_sessions_for_project 1 exDbRows =
      [⟨"c", 1, 7⟩, ⟨"d", 1, 7⟩, ⟨"a", 1, 5⟩] ∧
    (⟨"c", (1 : Int), (7 : Int)⟩ : DbSessionRow).project_id = 1 :=
  ⟨by decide, (load_sessions_for_project_ordered 1 exDbRows).2.2
    ⟨"c", 1, 7⟩ (by decide)⟩

/-! ## Table selection restoration (`app/session/refresh.rs`) -/

/-- From `App::restore_table_selection`: empty list clears the selection;
a still-present previously selected id is re-selected at its new index;
otherwise the previous numeric index is clamped to the last valid
index. -/
def restore_table_selection (sessions : List String)
    (selected_session_id : Option String) (selected_index : Option Nat) :
    Option Nat :=
  if sessions.isEmpty then none
  else
    match selected_session_id.bind
        (fun session_id => sessions.findIdx? (fun id => id = session_id)) with
    | some index => some index
    | none => selected_index.map (fun index => min index (sessions.length - 1))

/-- From `App::reload_sessions`: before the reload the selected session id
is read from the old list at the selected index; afterwards the selection
is restored against the new list. -/
def reload_selection (old_sessions new_sessions : List String)
    (selected_index : Option Nat) : Option Nat :=
  restore_table_selection new_sessions
    (selected_index.bind (fun index => old_sessions[index]?))
    selected_index

theorem findIdx_of_mem (l : List String) (id : String) (h : id ∈ l) :
    ∃ j, l.findIdx? (fun x => x = id) = some j ∧ l[j]? = some id := by
  induction l with
  | nil => cases h
  | cons a t ih =>
    by_cases ha : a = id
    · exact ⟨0, by simp [List.findIdx?_cons, ha], by simp [ha]⟩
    · have ht : id ∈ t := by
        rcases List.mem_cons.mp h with h | h
        · exact absurd h.symm ha
        · exact h
      obtain ⟨j, hj, hg⟩ := ih ht
      exact ⟨j + 1, by simp [List.findIdx?_cons, ha, hj], by simpa using hg⟩

theorem findIdx_of_not_mem (l : List String) (id : String) (h : id ∉ l) :
    l.findIdx? (fun x => x = id) = none := by
  induction l with
  | nil => rfl
  | cons a t ih =>
    have ha : ¬ a = id := fun hc => h (hc ▸ List.mem_cons_self a t)
    have ht : id ∉ t := fun hc => h (List.mem_cons_of_mem a hc)
    simp [List.findIdx?_cons, ha, ih ht]

/-- C10: after a session-list reload, selection is restored as follows:
an empty new list clears the selection; if the previously selected
session id still occurs in the new list, that session is selected at its
new index; otherwise the previous numeric index is kept, clamped to the
last valid index of the new list (and no selection stays no
selection). -/
theorem reload_selection_contract (old_sessions new_sessions : List String)
    (selected_index : Option Nat) :
    (new_sessions = [] →
      reload_selection old_sessions new_sessions selected_index = none) ∧
    (∀ i id, selected_index = some i → old_sessions[i]? = some id →
      id ∈ new_sessions →
      ∃ j, new_sessions.findIdx? (fun x => x = id) = some j ∧
        new_sessions[j]? = some id ∧
        reload_selection old_sessions new_sessions selected_index = some j) ∧
    (∀ i, selected_index = some i → new_sessions ≠ [] →
      (∀ id, old_sessions[i]? = some id → id ∉ new_sessions) →
      reload_selection old_sessions new_sessions selected_index =
        some (min i (new_sessions.length - 1))) ∧
    (selected_index = none →
      reload_selection old_sessions new_sessions selected_index = none) := by
  refine ⟨?_, ?_, ?_, ?_⟩
  · rintro rfl
    rfl
  · rintro i id rfl hold hmem
    obtain ⟨j, hj, hg⟩ := findIdx_of_mem new_sessions id hmem
    refine ⟨j, hj, hg, ?_⟩
    have hne : new_sessions.isEmpty = false := by
      cases new_sessions with
      | nil => cases hmem
      | cons a t => rfl
    unfold reload_selection restore_table_selection
    simp [hne, hold, hj]
  · rintro i rfl hne hnot
    have hempty : new_sessions.isEmpty = false := by
      cases new_sessions with
      | nil => exact absurd rfl hne
      | cons a t => rfl
    unfold reload_selection restore_table_selection
    cases hold : old_sessions[i]? with
    | none => simp [hempty, hold]
    | some id =>
      have hfind := findIdx_of_not_mem new_sessions id (hnot id hold)
      simp [hempty, hold, hfind]
  · rintro rfl
    unfold reload_selection restore_table_selection
    cases hnew : new_sessions.isEmpty <;> simp [hnew]

/-- Witness for `reload_selection_contract`: the previously selected
session `b` (index 1 of the old list) is re-selected at its new index 1
after the reload. -/
theorem reload_selection_contract_witness :
    ∃ j, (["x", "b"] : List String).findIdx? (fun x => x = "b") = some j ∧
      (["x", "b"] : List String)[j]? = some "b" ∧
      reload_selection ["a", "b", "c"] ["x", "b"] (some 1) = some j :=
  (reload_selection_contract ["a", "b", "c"] ["x", "b"] (some 1)).2.1
    1 "b" rfl (by decide) (by decide)

end Agentty
